import Mathlib

/-!
Verification development for the `kai` camera-coordination repository.

The Python source is shallowly embedded: strings are lists of characters
(`Chars`), the file-backed feed store is a map from sanitized feed names to
optional file contents, and the two status-artifact directories are lists of
filenames.  Each definition mirrors one Python function of the source
(`feeds.py`, `control_server.py`, `image_server.py`); filesystem effects are
made explicit as state transformers, and fallible operations return `Option`.
-/

abbrev Chars := List Char

/-- Python `str` whitespace characters (ASCII subset used by `str.strip()`):
space, tab, newline, carriage return, vertical tab, form feed. -/
def pyIsSpace (c : Char) : Bool :=
  c = ' ' || c = '\t' || c = '\n' || c = '\r' || c = Char.ofNat 11 || c = Char.ofNat 12

/-- Python `str.lstrip()`. -/
def pyLStrip (s : Chars) : Chars := s.dropWhile pyIsSpace

/-- Python `str.rstrip()`. -/
def pyRStrip (s : Chars) : Chars := (s.reverse.dropWhile pyIsSpace).reverse

/-- Python `str.strip()`: drop leading and trailing whitespace. -/
def pyStrip (s : Chars) : Chars := pyRStrip (pyLStrip s)

/-- Python `str.rstrip("\n")`: drop trailing newline characters only. -/
def pyRStripNewlines (s : Chars) : Chars :=
  (s.reverse.dropWhile (fun c => c = '\n')).reverse

/-- Python `str.upper()` (ASCII). -/
def pyUpper (s : Chars) : Chars := s.map Char.toUpper

/-- Python `str.lower()` (ASCII). -/
def pyLower (s : Chars) : Chars := s.map Char.toLower

/-- Split a character list on a separator character; mirrors how Python's
line-based file reading cuts a file body into lines at `'\n'`. -/
def splitOnChar (sep : Char) : Chars → List Chars
  | [] => [[]]
  | c :: rest =>
    if c = sep then [] :: splitOnChar sep rest
    else
      match splitOnChar sep rest with
      | [] => [[c]]
      | h :: t => (c :: h) :: t

/-- Universal-newline translation performed by Python text-mode reads:
`"\r\n"` and a lone `"\r"` both become `"\n"`. -/
def translateNewlines : Chars → Chars
  | [] => []
  | [c] => if c = '\r' then ['\n'] else [c]
  | c :: d :: rest =>
    if c = '\r' then
      if d = '\n' then '\n' :: translateNewlines rest
      else '\n' :: translateNewlines (d :: rest)
    else c :: translateNewlines (d :: rest)

/-- Python `str.rsplit(sep, 1)` followed by a two-element unpacking:
`none` when the separator does not occur (the unpacking raises). -/
def rsplitOnce (sep : Char) (s : Chars) : Option (Chars × Chars) :=
  let tail := s.reverse.takeWhile (fun c => ¬ c = sep)
  if tail.length = s.length then none
  else some ((s.reverse.drop (tail.length + 1)).reverse, tail.reverse)

/-- Python `os.path.splitext` on a bare filename: split at the last dot,
except that a basename consisting only of leading dots is not split. -/
def splitext (s : Chars) : Chars × Chars :=
  let tail := s.reverse.takeWhile (fun c => ¬ c = '.')
  if tail.length = s.length then (s, [])
  else
    let stemRev := s.reverse.drop (tail.length + 1)
    if stemRev.all (fun c => c = '.') then (s, [])
    else (stemRev.reverse, '.' :: tail.reverse)

/-- Python `os.path.basename` (POSIX): the part after the last `'/'`. -/
def basenameChars (s : Chars) : Chars :=
  (s.reverse.takeWhile (fun c => ¬ c = '/')).reverse

/-! ## feeds.py -/

/-- Contents of one feed's backing file: `none` when the file does not
exist, otherwise the raw character contents. -/
abbrev FeedState := Option Chars

/-- The `feeds/` folder: backing file contents per sanitized feed name. -/
abbrev FeedStore := Chars → FeedState

/-- `_feed_path`: the sanitized feed name keying the backing file; a blank
name raises `ValueError`, modelled by the `Option` results below. -/
def feedKey (name : Chars) : Chars := pyStrip name

/-- The read half shared by `consume_messages` and `peek_messages`:
`handle.readlines()` (after text-mode newline translation), each line
stripped, blank lines discarded. -/
def readFeedLines (content : Chars) : List Chars :=
  ((splitOnChar '\n' (translateNewlines content)).map pyStrip).filter
    (fun l => ¬ l = [])

/-- Appending one message to a backing file opened in `"a"` mode:
the message with trailing newlines removed, plus a newline terminator. -/
def appendContent (content : FeedState) (message : Chars) : Chars :=
  content.getD [] ++ pyRStripNewlines message ++ ['\n']

/-- `append_message`: `none` models the `ValueError` on a blank feed name. -/
def append_message (name message : Chars) (st : FeedStore) : Option FeedStore :=
  if feedKey name = [] then none
  else some (fun k =>
    if k = feedKey name then some (appendContent (st (feedKey name)) message)
    else st k)

/-- `consume_messages`: returns the pending messages and truncates the
backing file; a missing file yields `[]` without creating the file. -/
def consume_messages (name : Chars) (st : FeedStore) :
    Option (List Chars × FeedStore) :=
  if feedKey name = [] then none
  else
    match st (feedKey name) with
    | none => some ([], st)
    | some c =>
      some (readFeedLines c, fun k => if k = feedKey name then some [] else st k)

/-- `peek_messages`: same read as `consume_messages`, no write-back. -/
def peek_messages (name : Chars) (st : FeedStore) : Option (List Chars) :=
  if feedKey name = [] then none
  else
    match st (feedKey name) with
    | none => some []
    | some c => some (readFeedLines c)

/-! ## control_server.py -/

/-- `_parse_status_filename` (control server): recognise
`<camera_id>_<YES|NO>.<jpg|jpeg|png>` with `camera_id` matching `CAM_*`. -/
def parse_status_filename (filename : Chars) : Option (Chars × Chars) :=
  match splitext filename with
  | (stem, ext) =>
    if pyLower ext = (".jpg").data ∨ pyLower ext = (".jpeg").data ∨
        pyLower ext = (".png").data then
      if ('_' ∈ stem) then
        match rsplitOnce '_' stem with
        | none => none
        | some (cameraId, status) =>
          if ("CAM_").data.isPrefixOf cameraId then
            if pyUpper status = ("YES").data ∨ pyUpper status = ("NO").data then
              some (cameraId, pyUpper status)
            else none
          else none
      else none
    else none

/-- `get_camera_status`: build the `statuses` dict from the ready-directory
listing (later entries overwrite earlier ones) and look up one camera id. -/
def get_camera_status (dir : List Chars) (cameraId : Chars) : Option Chars :=
  (dir.filterMap parse_status_filename).foldl
    (fun acc kv => if kv.1 = cameraId then some kv.2 else acc) none

/-- The body of `read_control_feed` for one drained command: the list of
messages it writes to the `POWER` feed (empty when the command is
discarded). -/
def process_control_command (command : Chars) : List Chars :=
  let command := pyStrip command
  if ("SET_CAM_").data.isPrefixOf command then
    match rsplitOnce '_' (command.drop 4) with
    | none => []
    | some (target, desiredState) =>
      let desiredState := pyUpper desiredState
      if desiredState = ("ON").data ∨ desiredState = ("OFF").data then
        [target ++ ['_'] ++ desiredState]
      else []
  else []

/-- `read_control_feed` applied to the commands drained from the control
feed: the messages written to the `POWER` feed, in order. -/
def read_control_feed (commands : List Chars) : List Chars :=
  commands.flatMap process_control_command

/-- One iteration of the inactivity bookkeeping in `main` for one camera:
given the in-memory counter and the camera's status, return the new counter
and the messages written to the `POWER` feed. -/
def inactivity_step (cameraId : Chars) (count : Nat) (status : Chars) :
    Nat × List Chars :=
  let count := if status = ("NO").data then count + 1 else 0
  if 10 ≤ count then (0, [cameraId ++ ("_OFF").data]) else (count, [])

/-- The inactivity bookkeeping iterated over consecutive cycles of statuses
for one camera, accumulating the emitted `POWER` messages in order. -/
def inactivity_run (cameraId : Chars) (count : Nat) (statuses : List Chars) :
    Nat × List Chars :=
  statuses.foldl
    (fun acc status =>
      let step := inactivity_step cameraId acc.1 status
      (step.1, acc.2 ++ step.2))
    (count, [])

/-! ## image_server.py -/

/-- `_parse_ready_filename` (image server): same grammar as
`parse_status_filename`, with the last two checks in the other order. -/
def parse_ready_filename (filename : Chars) : Option (Chars × Chars) :=
  match splitext filename with
  | (stem, ext) =>
    if pyLower ext = (".jpg").data ∨ pyLower ext = (".jpeg").data ∨
        pyLower ext = (".png").data then
      if ('_' ∈ stem) then
        match rsplitOnce '_' stem with
        | none => none
        | some (base, status) =>
          if pyUpper status = ("YES").data ∨ pyUpper status = ("NO").data then
            if ("CAM_").data.isPrefixOf base then
              some (base, pyUpper status)
            else none
          else none
      else none
    else none

/-- `_camera_id_from_path`: the stem of the path's basename (returned
whether or not it follows the `CAM_*` convention). -/
def camera_id_from_path (imagePath : Chars) : Chars :=
  (splitext (basenameChars imagePath)).1

/-- The filter applied by `_remove_existing_ready_file` to one directory
entry: `parsed and parsed[0] == camera_id`. -/
def matches_camera (cameraId entry : Chars) : Bool :=
  match parse_ready_filename entry with
  | some parsed => parsed.1 = cameraId
  | none => false

/-- `_remove_existing_ready_file` (all removals succeeding): drop every
entry recognised as an artifact of the given camera. -/
def remove_existing_ready_file (cameraId : Chars) (dir : List Chars) :
    List Chars :=
  dir.filter (fun entry => ¬ matches_camera cameraId entry = true)

/-- The destination filename used by `_write_ready_image`
(`f"{camera_id}_{status}.jpg"`; the source extension is computed but not
used by the source). -/
def ready_name (cameraId status : Chars) : Chars :=
  cameraId ++ ['_'] ++ status ++ (".jpg").data

/-- `_write_ready_image` on the ready-directory listing: best-effort removal
of stale artifacts (modelled as succeeding), then the copy creating the new
artifact. The source path only supplies the copied payload. -/
def write_ready_image (sourcePath cameraId status : Chars)
    (dir : List Chars) : List Chars :=
  remove_existing_ready_file cameraId dir ++ [ready_name cameraId status]

/-- `detect_person_in_batch` with the model loaded: every path starts at
`"NO"`; the provider's per-index detections (`some preds`) overwrite with
`"YES"` where a person is found; a raised exception (`none`) leaves all
defaults in place. A predictions list shorter than the batch leaves the
remaining paths at `"NO"`; extra predictions are without effect. -/
def detect_core : List Chars → Option (List Bool) → List (Chars × Chars)
  | [], _ => []
  | p :: ps, none => (p, ("NO").data) :: detect_core ps none
  | p :: ps, some [] => (p, ("NO").data) :: detect_core ps (some [])
  | p :: ps, some (b :: bs) =>
    (p, if b then ("YES").data else ("NO").data) :: detect_core ps (some bs)

/-- `detect_person_in_batch`: when the model failed to load, each path gets
an independent random verdict; otherwise `detect_core` describes the
default-`"NO"`-then-overwrite loop. -/
def detect_person_in_batch (modelLoaded : Bool) (randomBit : Nat → Bool)
    (paths : List Chars) (preds : Option (List Bool)) : List (Chars × Chars) :=
  if modelLoaded then detect_core paths preds
  else paths.enum.map fun ip =>
    (ip.2, if randomBit ip.1 then ("YES").data else ("NO").data)

/-- The verdict the fail-closed policy assigns to the `i`-th identifier of a
batch: `NO` when the whole provider call failed (`none`) or when the
provider omitted a verdict for index `i`; otherwise the returned verdict. -/
def expected_batch_status (preds : Option (List Bool)) (i : Nat) : Chars :=
  match preds with
  | none => ("NO").data
  | some l => if l.getD i false then ("YES").data else ("NO").data

/-- The status-token guard in `capture_and_update_images`: uppercase, and
anything other than `YES`/`NO` collapses to `NO`. -/
def status_token (status : Chars) : Chars :=
  let u := pyUpper status
  if u = ("YES").data ∨ u = ("NO").data then u else ("NO").data

/-- The write-back loop of `capture_and_update_images` over one batch's
detection results. -/
def process_detections (results : List (Chars × Chars)) (dir : List Chars) :
    List Chars :=
  results.foldl
    (fun d r => write_ready_image r.1 (camera_id_from_path r.1) (status_token r.2) d)
    dir

/-- `BATCH_SIZE`. -/
def BATCH_SIZE : Nat := 25

/-- The batch partition `range(0, len(files), BATCH_SIZE)` /
`files[i:i+BATCH_SIZE]` of `capture_and_update_images`. -/
def toBatches : List Chars → List (List Chars)
  | [] => []
  | f :: fs => ((f :: fs).take BATCH_SIZE) :: toBatches ((f :: fs).drop BATCH_SIZE)
  termination_by l => l.length
  decreasing_by simp [BATCH_SIZE]; omega

/-- One batch of `capture_and_update_images`: run detection (model loaded)
and write an artifact per result. `preds` is the Inference Provider's
answer for this batch. -/
def process_batch (paths : List Chars) (preds : Option (List Bool))
    (dir : List Chars) : List Chars :=
  process_detections (detect_person_in_batch true (fun _ => false) paths preds) dir

/-- `capture_and_update_images`: partition the recognised source files into
batches of `BATCH_SIZE` and process each batch in turn; `provide` is the
Inference Provider invoked once per batch. -/
def capture_and_update_images (provide : List Chars → Option (List Bool))
    (files : List Chars) (dir : List Chars) : List Chars :=
  (toBatches files).foldl (fun d batch => process_batch batch (provide batch) d) dir

/-- Python `dict.get` over the insertion-ordered pairs of a detection
result (later insertions overwrite). -/
def dict_get (pairs : List (Chars × Chars)) (key : Chars) : Option Chars :=
  pairs.foldl (fun acc kv => if kv.1 = key then some kv.2 else acc) none

/-- The source-image lookup loop of `process_force_requests`: first listing
entry with a recognised extension whose stem equals the camera id, joined
with the source directory. -/
def find_source_image (srcDir : List Chars) (cameraId : Chars) : Option Chars :=
  (srcDir.find? fun filename =>
    let se := splitext filename
    decide ((pyLower se.2 = (".jpg").data ∨ pyLower se.2 = (".jpeg").data ∨
      pyLower se.2 = (".png").data) ∧ se.1 = cameraId)).map
    (fun filename => ("images_src/").data ++ filename)

/-- An observable filesystem/feed effect of the force-update path, in
execution order. -/
inductive FsEvent where
  | writeArtifact (sourcePath cameraId status : Chars)
  | servedMessage (message : Chars)
  deriving DecidableEq

/-- The single-image detection of `process_force_requests`:
`detection_result.get(source_image_path, "NO").upper()` with the
`YES`/`NO` guard. -/
def force_detect_status (provider : Chars → Option (List Bool))
    (sourcePath : Chars) : Chars :=
  let results := detect_person_in_batch true (fun _ => false) [sourcePath]
    (provider sourcePath)
  let status := pyUpper ((dict_get results sourcePath).getD (("NO").data))
  if status = ("YES").data ∨ status = ("NO").data then status else ("NO").data

/-- The body of `process_force_requests` for one drained request: the
effects it performs, in order (artifact write, then served message). -/
def process_one_force_request (srcDir : List Chars)
    (provider : Chars → Option (List Bool)) (request : Chars) : List FsEvent :=
  if ("FORCE_UPDATE_").data.isPrefixOf request then
    let cameraId := pyStrip (request.drop 13)
    if cameraId = [] then []
    else if ("CAM_").data.isPrefixOf cameraId then
      match find_source_image srcDir cameraId with
      | none => []
      | some sourcePath =>
        [FsEvent.writeArtifact sourcePath cameraId
          (force_detect_status provider sourcePath),
         FsEvent.servedMessage (("UPDATED_").data ++ cameraId)]
    else []
  else []

/-- `process_force_requests` over the drained request list: all effects in
execution order. -/
def process_force_requests (srcDir : List Chars)
    (provider : Chars → Option (List Bool)) (requests : List Chars) :
    List FsEvent :=
  requests.flatMap (process_one_force_request srcDir provider)

/-! ## Helper lemmas -/

theorem inactivity_run_no_aux (cameraId : Chars) :
    ∀ (n c : Nat), c + n ≤ 9 →
      inactivity_run cameraId c (List.replicate n (("NO").data)) = (c + n, []) := by
  intro n
  induction n with
  | zero => intro c _; simp [inactivity_run]
  | succ k ih =>
    intro c hc
    rw [List.replicate_succ]
    show inactivity_run cameraId c ((("NO").data) :: List.replicate k (("NO").data)) = _
    have hstep : inactivity_step cameraId c (("NO").data) = (c + 1, []) := by
      simp only [inactivity_step, eq_self_iff_true, if_true]
      rw [if_neg (by omega : ¬ 10 ≤ c + 1)]
    unfold inactivity_run at ih ⊢
    simp only [List.foldl_cons, hstep]
    have := ih (c + 1) (by omega)
    unfold inactivity_run at this
    simpa [Nat.add_assoc, Nat.add_comm, Nat.add_left_comm] using this

/-! ## C3 -/

/-- C3: starting from a fresh counter, 9 consecutive ABSENT (`NO`) verdicts
emit nothing; the 10th consecutive ABSENT verdict emits exactly one
`<camera_id>_OFF` message on the power feed and resets the counter to 0;
and a PRESENT (`YES`) verdict resets the counter to 0 from any value,
emitting nothing. -/
theorem inactivity_threshold_correct (cameraId : Chars) (n : Nat)
    (hn : n ≤ 9) (c : Nat) :
    inactivity_run cameraId 0 (List.replicate n (("NO").data)) = (n, []) ∧
    inactivity_run cameraId 0 (List.replicate 10 (("NO").data)) =
      (0, [cameraId ++ ("_OFF").data]) ∧
    inactivity_step cameraId c (("YES").data) = (0, []) := by
  refine ⟨?_, ?_, ?_⟩
  · simpa using inactivity_run_no_aux cameraId n 0 (by omega)
  · have h9 : inactivity_run cameraId 0 (List.replicate 9 (("NO").data)) = (9, []) := by
      simpa using inactivity_run_no_aux cameraId 9 0 (by omega)
    rw [show (10 : Nat) = 9 + 1 from rfl, List.replicate_succ']
    unfold inactivity_run at h9 ⊢
    rw [List.foldl_append, h9]
    simp [inactivity_step]
  · simp [inactivity_step]

/-- C3 witness at `CAM_7`, `n = 9`, `c = 3`. -/
theorem inactivity_threshold_correct_witness :
    inactivity_run ("CAM_7").data 0 (List.replicate 9 (("NO").data)) = (9, []) ∧
    inactivity_run ("CAM_7").data 0 (List.replicate 10 (("NO").data)) =
      (0, [("CAM_7").data ++ ("_OFF").data]) ∧
    inactivity_step ("CAM_7").data 3 (("YES").data) = (0, []) :=
  inactivity_threshold_correct ("CAM_7").data 9 (by omega) 3

/-! ## C9 -/

/-- C9: for every feed name and store contents, `peek` returns exactly the
sequence a subsequent `drain` returns (and, `peek_messages` being a pure
read of the store, it modifies nothing). -/
theorem peek_then_drain_same (name : Chars) (st : FeedStore) :
    peek_messages name st = (consume_messages name st).map Prod.fst := by
  unfold peek_messages consume_messages
  by_cases h : feedKey name = []
  · simp [h]
  · simp only [if_neg h]
    cases st (feedKey name) <;> simp

/-! ## C1 -/

/-- C1 counterexample: `"SET_LIGHT_ON"` carries the `SET_` prefix and its
trailing underscore-separated token is `ON`, yet `read_control_feed`
discards it and emits nothing onto the power feed (the code requires the
longer `SET_CAM_` prefix). -/
theorem control_set_prefix_counterexample :
    ("SET_").data.isPrefixOf (pyStrip ("SET_LIGHT_ON").data) = true ∧
    rsplitOnce '_' ("SET_LIGHT_ON").data =
      some (("SET_LIGHT").data, ("ON").data) ∧
    read_control_feed [("SET_LIGHT_ON").data] = [] := by
  refine ⟨by decide, by decide, by decide⟩

/-- C1 amended: a drained message is forwarded iff it carries the
`SET_CAM_` prefix (not merely `SET_`) and its trailing underscore-separated
token uppercases to `ON` or `OFF`; the forwarded message is
`<target>_<STATE>` with the state uppercased, emitted exactly once; every
other message produces no power-feed message. -/
theorem read_control_feed_amended (msg target state : Chars)
    (h0 : pyStrip msg = msg)
    (hpre : ("SET_CAM_").data.isPrefixOf msg = true)
    (hsplit : rsplitOnce '_' (msg.drop 4) = some (target, state)) :
    (pyUpper state = ("ON").data ∨ pyUpper state = ("OFF").data →
      read_control_feed [msg] = [target ++ ['_'] ++ pyUpper state]) ∧
    (¬ (pyUpper state = ("ON").data ∨ pyUpper state = ("OFF").data) →
      read_control_feed [msg] = []) ∧
    (∀ m, ¬ ("SET_CAM_").data.isPrefixOf (pyStrip m) = true →
      read_control_feed [m] = []) := by
  refine ⟨?_, ?_, ?_⟩
  · intro hstate
    simp only [read_control_feed, List.flatMap_cons, List.flatMap_nil,
      List.append_nil]
    unfold process_control_command
    rw [h0, if_pos hpre, hsplit]
    simp only [if_pos hstate]
  · intro hstate
    simp only [read_control_feed, List.flatMap_cons, List.flatMap_nil,
      List.append_nil]
    unfold process_control_command
    rw [h0, if_pos hpre, hsplit]
    simp only [if_neg hstate]
  · intro m hm
    simp only [read_control_feed, List.flatMap_cons, List.flatMap_nil,
      List.append_nil]
    unfold process_control_command
    rw [if_neg hm]

/-- C1 amended-claim witness at `"SET_CAM_door_on"`. -/
theorem read_control_feed_amended_witness :
    read_control_feed [("SET_CAM_door_on").data] = [("CAM_door_ON").data] ∧
    read_control_feed [("SET_CAM_door_MAYBE").data] = [] ∧
    read_control_feed [("TURN_ON_CAM_X").data] = [] := by
  have h := read_control_feed_amended ("SET_CAM_door_on").data
    ("CAM_door").data ("on").data (by decide) (by decide) (by decide)
  have h2 := read_control_feed_amended ("SET_CAM_door_MAYBE").data
    ("CAM_door").data ("MAYBE").data (by decide) (by decide) (by decide)
  refine ⟨by simpa using h.1 (by decide), by simpa using h2.2.1 (by decide),
    h.2.2 ("TURN_ON_CAM_X").data (by decide)⟩

/-! ## C2 helper lemmas -/

theorem dropWhile_eq_self_of_length (p : Char → Bool) (l : Chars)
    (h : (l.dropWhile p).length = l.length) : l.dropWhile p = l :=
  (List.dropWhile_suffix p).eq_of_length h

theorem pyLStrip_eq_self_of_strip (m : Chars) (hm : pyStrip m = m) :
    pyLStrip m = m := by
  have h1 : (pyLStrip m).length ≤ m.length :=
    (List.dropWhile_suffix pyIsSpace).sublist.length_le
  have h2 : (pyStrip m).length ≤ (pyLStrip m).length := by
    have := (List.dropWhile_suffix (l := (pyLStrip m).reverse) pyIsSpace).sublist.length_le
    simpa [pyStrip, pyRStrip] using this
  rw [hm] at h2
  exact dropWhile_eq_self_of_length _ _ (Nat.le_antisymm h1 h2)

theorem pyRStrip_eq_self_of_strip (m : Chars) (hm : pyStrip m = m) :
    pyRStrip m = m := by
  have h1 := pyLStrip_eq_self_of_strip m hm
  calc pyRStrip m = pyRStrip (pyLStrip m) := by rw [h1]
    _ = m := hm

theorem reverse_dropWhile_eq_self_of_strip (m : Chars) (hm : pyStrip m = m) :
    m.reverse.dropWhile pyIsSpace = m.reverse := by
  have h := pyRStrip_eq_self_of_strip m hm
  unfold pyRStrip at h
  have := congrArg List.reverse h
  rwa [List.reverse_reverse] at this

theorem pyRStripNewlines_eq_self (m : Chars) (hm : pyStrip m = m) :
    pyRStripNewlines m = m := by
  have hws := reverse_dropWhile_eq_self_of_strip m hm
  unfold pyRStripNewlines
  rw [← List.reverse_inj] at *
  rw [List.reverse_reverse]
  cases hrev : m.reverse with
  | nil => simp
  | cons c t =>
    rw [hrev] at hws
    rw [List.dropWhile_cons] at hws ⊢
    have hc : pyIsSpace c = false := by
      by_contra hb
      have hb' : pyIsSpace c = true := by
        revert hb; cases pyIsSpace c <;> simp
      rw [if_pos hb'] at hws
      have hle : (List.dropWhile pyIsSpace t).length ≤ t.length :=
        (List.dropWhile_suffix pyIsSpace).sublist.length_le
      have hlen := congrArg List.length hws
      simp at hlen
      omega
    have hcn : ¬ c = '\n' := by
      intro hcn
      subst hcn
      simp [pyIsSpace] at hc
    rw [if_neg (by simpa using hcn)]

theorem translateNewlines_eq_self (l : Chars) (h : '\r' ∉ l) :
    translateNewlines l = l := by
  induction l with
  | nil => rfl
  | cons c rest ih =>
    have hc : ¬ c = '\r' := fun hc => h (hc ▸ List.mem_cons_self c rest)
    have hrest : '\r' ∉ rest := fun hr => h (List.mem_cons_of_mem c hr)
    cases rest with
    | nil =>
      show (if c = '\r' then ['\n'] else [c]) = [c]
      rw [if_neg hc]
    | cons d rest2 =>
      show (if c = '\r' then _ else c :: translateNewlines (d :: rest2)) = _
      rw [if_neg hc, ih hrest]

theorem splitOnChar_nil (sep : Char) : splitOnChar sep [] = [[]] := rfl

theorem splitOnChar_append_sep (sep : Char) (m rest : Chars) (h : sep ∉ m) :
    splitOnChar sep (m ++ sep :: rest) = m :: splitOnChar sep rest := by
  induction m with
  | nil => simp [splitOnChar]
  | cons c m' ih =>
    have hc : ¬ c = sep := fun hc => h (hc ▸ List.mem_cons_self c m')
    have hm' : sep ∉ m' := fun hm => h (List.mem_cons_of_mem c hm)
    show (if c = sep then [] :: splitOnChar sep (m' ++ sep :: rest)
        else match splitOnChar sep (m' ++ sep :: rest) with
          | [] => [[c]]
          | h :: t => (c :: h) :: t) = (c :: m') :: splitOnChar sep rest
    rw [if_neg hc, ih hm']

/-- `consume_messages` on a store whose backing file for the feed holds
known contents. -/
theorem consume_messages_of_eq (name : Chars) (st : FeedStore) (c : Chars)
    (hname : ¬ feedKey name = []) (h : st (feedKey name) = some c) :
    consume_messages name st =
      some (readFeedLines c, fun k => if k = feedKey name then some [] else st k) := by
  unfold consume_messages
  rw [if_neg hname, h]

/-- `append_message` on a valid feed name, unfolded. -/
theorem append_message_some (name m : Chars) (st : FeedStore)
    (hname : ¬ feedKey name = []) :
    append_message name m st =
      some (fun k => if k = feedKey name then
        some (appendContent (st (feedKey name)) m) else st k) := by
  unfold append_message
  rw [if_neg hname]

/-! ## C2 -/

/-- C2 counterexample: drain does not return the appended message exactly
once in three concrete situations.  (a) A whitespace-only message appended
to an empty feed is filtered out: the drain contains it zero times.  (b) If
the feed already stores an equal message, the drain contains the appended
message twice.  (c) A message with an embedded newline is split into two
different messages, so the appended message occurs zero times. -/
theorem append_drain_exactly_once_counterexample :
    ((append_message ("control").data ([' ']) (fun _ => none)).bind
      (consume_messages ("control").data)).map Prod.fst = some [] ∧
    ((append_message ("control").data ("A").data
        (fun _ => some (('A') :: ('\n') :: []))).bind
      (consume_messages ("control").data)).map Prod.fst =
      some [("A").data, ("A").data] ∧
    ((append_message ("control").data (('A') :: ('\n') :: ('B') :: [])
        (fun _ => none)).bind
      (consume_messages ("control").data)).map Prod.fst =
      some [("A").data, ("B").data] := by
  refine ⟨by decide, by decide, by decide⟩

/-- C2 amended: for every feed with a non-blank name whose backing file is
absent or empty, and every message that is non-blank, has no leading or
trailing whitespace, and contains no newline or carriage-return character,
`append` followed by `drain` returns exactly that message once, and a
subsequent `drain` with no intervening append returns the empty sequence. -/
theorem append_then_drain_exactly_once (name m : Chars) (st : FeedStore)
    (hname : ¬ feedKey name = [])
    (hempty : st (feedKey name) = none ∨ st (feedKey name) = some [])
    (hm : pyStrip m = m) (hm0 : ¬ m = [])
    (hnl : '\n' ∉ m) (hcr : '\r' ∉ m) :
    ∃ st₁ st₂, append_message name m st = some st₁ ∧
      consume_messages name st₁ = some ([m], st₂) ∧
      (consume_messages name st₂).map Prod.fst = some [] := by
  have happ := append_message_some name m st hname
  have hcontent : appendContent (st (feedKey name)) m = m ++ ['\n'] := by
    unfold appendContent
    rcases hempty with h | h <;> rw [h] <;>
      simp [pyRStripNewlines_eq_self m hm]
  have hlines : readFeedLines (m ++ ['\n']) = [m] := by
    unfold readFeedLines
    have htr : translateNewlines (m ++ ['\n']) = m ++ ['\n'] := by
      apply translateNewlines_eq_self
      intro hmem
      rcases List.mem_append.mp hmem with h | h
      · exact hcr h
      · simp at h
    rw [htr, show m ++ ['\n'] = m ++ '\n' :: [] from rfl,
      splitOnChar_append_sep '\n' m [] hnl, splitOnChar_nil]
    rw [List.map_cons, List.map_cons, List.map_nil, hm,
      show pyStrip ([] : Chars) = [] from rfl]
    simp [List.filter_cons, hm0]
  have h1 : (fun k => if k = feedKey name then
      some (appendContent (st (feedKey name)) m) else st k) (feedKey name) =
      some (m ++ ['\n']) := by
    show (if feedKey name = feedKey name then _ else _) = _
    rw [if_pos rfl, hcontent]
  have hcons1 := consume_messages_of_eq name
    (fun k => if k = feedKey name then
      some (appendContent (st (feedKey name)) m) else st k)
    (m ++ ['\n']) hname h1
  rw [hlines] at hcons1
  have h2 : (fun k => if k = feedKey name then some [] else
      (fun k' => if k' = feedKey name then
        some (appendContent (st (feedKey name)) m) else st k') k) (feedKey name) =
      some [] := by
    show (if feedKey name = feedKey name then _ else _) = _
    rw [if_pos rfl]
  have hcons2 := consume_messages_of_eq name
    (fun k => if k = feedKey name then some [] else
      (fun k' => if k' = feedKey name then
        some (appendContent (st (feedKey name)) m) else st k') k)
    [] hname h2
  refine ⟨_, _, happ, hcons1, ?_⟩
  rw [hcons2]
  rfl

/-- C2 amended-claim witness: feed `control`, message `HELLO`, empty store. -/
theorem append_then_drain_exactly_once_witness :
    ∃ st₁ st₂,
      append_message ("control").data ("HELLO").data (fun _ => none) = some st₁ ∧
      consume_messages ("control").data st₁ = some ([("HELLO").data], st₂) ∧
      (consume_messages ("control").data st₂).map Prod.fst = some [] :=
  append_then_drain_exactly_once ("control").data ("HELLO").data (fun _ => none)
    (by decide) (Or.inl rfl) (by decide) (by decide) (by decide) (by decide)

/-! ## C4 helper lemmas -/

theorem takeWhile_all_stop (p : Char → Bool) (l1 : Chars) (x : Char) (l2 : Chars)
    (h : ∀ c ∈ l1, p c = true) (hx : p x = false) :
    (l1 ++ x :: l2).takeWhile p = l1 := by
  induction l1 with
  | nil => simp [List.takeWhile_cons, hx]
  | cons c t ih =>
    have hc : p c = true := h c (List.mem_cons_self c t)
    have ht : ∀ c ∈ t, p c = true := fun a ha => h a (List.mem_cons_of_mem c ha)
    simp [List.takeWhile_cons, hc, ih ht]

theorem rsplitOnce_append (sep : Char) (x y : Chars)
    (hy : ∀ c ∈ y, ¬ c = sep) :
    rsplitOnce sep (x ++ sep :: y) = some (x, y) := by
  dsimp only [rsplitOnce]
  have hrev : (x ++ sep :: y).reverse = y.reverse ++ sep :: x.reverse := by
    simp [List.reverse_cons, List.append_assoc]
  rw [hrev]
  have htake : (y.reverse ++ sep :: x.reverse).takeWhile (fun c => ¬ c = sep) =
      y.reverse := by
    apply takeWhile_all_stop
    · intro c hcm
      simp only [decide_eq_true_eq]
      exact hy c (List.mem_reverse.mp hcm)
    · simp
  rw [htake]
  rw [if_neg (by simp [List.length_append]; omega)]
  rw [List.length_reverse, show y.length + 1 = y.length + 1 from rfl]
  rw [show (y.reverse ++ sep :: x.reverse).drop (y.length + 1) =
    ((y.reverse ++ sep :: x.reverse).drop (y.reverse.length + 1)) from by
      rw [List.length_reverse]]
  rw [List.drop_append 1]
  simp

theorem splitext_jpg (x : Chars)
    (hx : x.reverse.all (fun c => c = '.') = false) :
    splitext (x ++ ('.' :: 'j' :: 'p' :: 'g' :: [])) =
      (x, '.' :: 'j' :: 'p' :: 'g' :: []) := by
  dsimp only [splitext]
  have hrev : (x ++ ('.' :: 'j' :: 'p' :: 'g' :: [])).reverse =
      'g' :: 'p' :: 'j' :: '.' :: x.reverse := by
    rw [List.reverse_append]; rfl
  rw [hrev]
  have htake : ('g' :: 'p' :: 'j' :: '.' :: x.reverse).takeWhile
      (fun c => ¬ c = '.') = ('g' :: 'p' :: 'j' :: []) := rfl
  rw [htake]
  rw [if_neg (by simp [List.length_append])]
  have hdrop : ('g' :: 'p' :: 'j' :: '.' :: x.reverse).drop
      (('g' :: 'p' :: 'j' :: []) : Chars).length.succ = x.reverse := rfl
  rw [show ((('g' :: 'p' :: 'j' :: []) : Chars).length + 1) =
    (('g' :: 'p' :: 'j' :: []) : Chars).length.succ from rfl, hdrop]
  rw [if_neg (by simp [hx])]
  rw [List.reverse_reverse]
  rfl

theorem parse_ready_roundtrip (cid st : Chars)
    (hc : ("CAM_").data.isPrefixOf cid = true)
    (hst : st = ("YES").data ∨ st = ("NO").data) :
    parse_ready_filename (ready_name cid st) = some (cid, st) := by
  rcases hst with h | h <;> subst h
  · have hname : ready_name cid (("YES").data) =
        (cid ++ ('_' :: 'Y' :: 'E' :: 'S' :: [])) ++ ('.' :: 'j' :: 'p' :: 'g' :: []) := by
      simp [ready_name]
    have hx : (cid ++ ('_' :: 'Y' :: 'E' :: 'S' :: [])).reverse.all
        (fun c => c = '.') = false := by
      rw [List.all_eq_false]
      refine ⟨'_', by simp, by simp⟩
    unfold parse_ready_filename
    rw [hname, splitext_jpg _ hx]
    dsimp only
    rw [if_pos (Or.inl (show pyLower ('.' :: 'j' :: 'p' :: 'g' :: []) = (".jpg").data from rfl))]
    rw [if_pos (show '_' ∈ cid ++ ('_' :: 'Y' :: 'E' :: 'S' :: []) by simp)]
    rw [show cid ++ ('_' :: 'Y' :: 'E' :: 'S' :: []) =
      cid ++ '_' :: ('Y' :: 'E' :: 'S' :: []) from rfl]
    rw [rsplitOnce_append '_' cid ('Y' :: 'E' :: 'S' :: []) (by decide)]
    dsimp only
    rw [if_pos (show pyUpper ['Y', 'E', 'S'] = (['Y', 'E', 'S'] : Chars) ∨
      pyUpper ['Y', 'E', 'S'] = (['N', 'O'] : Chars) by decide)]
    rw [if_pos (show (['C', 'A', 'M', '_'] : Chars).isPrefixOf cid = true from hc)]
    rfl
  · have hname : ready_name cid (("NO").data) =
        (cid ++ ('_' :: 'N' :: 'O' :: [])) ++ ('.' :: 'j' :: 'p' :: 'g' :: []) := by
      simp [ready_name]
    have hx : (cid ++ ('_' :: 'N' :: 'O' :: [])).reverse.all
        (fun c => c = '.') = false := by
      rw [List.all_eq_false]
      refine ⟨'_', by simp, by simp⟩
    unfold parse_ready_filename
    rw [hname, splitext_jpg _ hx]
    dsimp only
    rw [if_pos (Or.inl (show pyLower ('.' :: 'j' :: 'p' :: 'g' :: []) = (".jpg").data from rfl))]
    rw [if_pos (show '_' ∈ cid ++ ('_' :: 'N' :: 'O' :: []) by simp)]
    rw [show cid ++ ('_' :: 'N' :: 'O' :: []) =
      cid ++ '_' :: ('N' :: 'O' :: []) from rfl]
    rw [rsplitOnce_append '_' cid ('N' :: 'O' :: []) (by decide)]
    dsimp only
    rw [if_pos (show pyUpper ['N', 'O'] = (['Y', 'E', 'S'] : Chars) ∨
      pyUpper ['N', 'O'] = (['N', 'O'] : Chars) by decide)]
    rw [if_pos (show (['C', 'A', 'M', '_'] : Chars).isPrefixOf cid = true from hc)]
    rfl

theorem parse_status_eq_ready (e : Chars) :
    parse_status_filename e = parse_ready_filename e := by
  unfold parse_status_filename parse_ready_filename
  rcases hse : splitext e with ⟨stem, ext⟩
  dsimp only
  split_ifs with h1 h2
  · rcases hsp : rsplitOnce '_' stem with - | ⟨c2, s2⟩
    · rfl
    · dsimp only
      split_ifs <;> rfl
  · rfl
  · rfl

theorem matches_camera_ready_name (cid st : Chars)
    (hc : ("CAM_").data.isPrefixOf cid = true)
    (hst : st = ("YES").data ∨ st = ("NO").data) :
    matches_camera cid (ready_name cid st) = true := by
  unfold matches_camera
  rw [parse_ready_roundtrip cid st hc hst]
  simp

theorem countP_remove_zero (cid : Chars) (d : List Chars) :
    (remove_existing_ready_file cid d).countP (fun e => matches_camera cid e) = 0 := by
  rw [List.countP_eq_zero]
  intro a ha
  unfold remove_existing_ready_file at ha
  have h := List.mem_filter.mp ha
  simpa using h.2

theorem remove_append (cid : Chars) (l1 l2 : List Chars) :
    remove_existing_ready_file cid (l1 ++ l2) =
      remove_existing_ready_file cid l1 ++ remove_existing_ready_file cid l2 := by
  unfold remove_existing_ready_file
  rw [List.filter_append]

theorem remove_remove (cid : Chars) (d : List Chars) :
    remove_existing_ready_file cid (remove_existing_ready_file cid d) =
      remove_existing_ready_file cid d := by
  unfold remove_existing_ready_file
  rw [List.filter_filter]
  simp [Bool.and_self]

theorem remove_ready_name_nil (cid st : Chars)
    (hc : ("CAM_").data.isPrefixOf cid = true)
    (hst : st = ("YES").data ∨ st = ("NO").data) :
    remove_existing_ready_file cid [ready_name cid st] = [] := by
  unfold remove_existing_ready_file
  simp [List.filter_cons, matches_camera_ready_name cid st hc hst]

theorem write_fold_eq (p0 cid : Chars)
    (hc : ("CAM_").data.isPrefixOf cid = true) :
    ∀ (writes : List Chars) (hw : ¬ writes = []) (dir : List Chars),
      (∀ s ∈ writes, s = ("YES").data ∨ s = ("NO").data) →
      writes.foldl (fun d s => write_ready_image p0 cid s d) dir =
        remove_existing_ready_file cid dir ++
          [ready_name cid (writes.getLast hw)] := by
  intro writes
  induction writes with
  | nil => intro hw; exact absurd rfl hw
  | cons s rest ih =>
    intro hw dir hst
    by_cases hr : rest = []
    · subst hr
      rfl
    · have hst' : ∀ x ∈ rest, x = ("YES").data ∨ x = ("NO").data :=
        fun x hx => hst x (List.mem_cons_of_mem s hx)
      have hs := hst s (List.mem_cons_self s rest)
      rw [List.foldl_cons, ih hr (write_ready_image p0 cid s dir) hst']
      have hrw : remove_existing_ready_file cid (write_ready_image p0 cid s dir) =
          remove_existing_ready_file cid dir := by
        unfold write_ready_image
        rw [remove_append, remove_remove, remove_ready_name_nil cid s hc hs,
          List.append_nil]
      rw [hrw]
      have hlast : (s :: rest).getLast hw = rest.getLast hr := List.getLast_cons hr
      rw [hlast]

theorem get_camera_status_append_name (A : List Chars) (cid st : Chars)
    (hc : ("CAM_").data.isPrefixOf cid = true)
    (hst : st = ("YES").data ∨ st = ("NO").data) :
    get_camera_status (A ++ [ready_name cid st]) cid = some st := by
  unfold get_camera_status
  rw [List.filterMap_append, List.foldl_append]
  have h1 : List.filterMap parse_status_filename [ready_name cid st] =
      [(cid, st)] := by
    simp [List.filterMap_cons, parse_status_eq_ready,
      parse_ready_roundtrip cid st hc hst]
  rw [h1]
  simp

/-! ## C4 -/

/-- C4: after any non-empty sequence of artifact writes for a `CAM_*`
camera id (each stale removal succeeding), exactly one ready-directory
entry is recognised as that camera's artifact, and `get_camera_status`
reports exactly the verdict of the last write. -/
theorem write_status_at_most_one (dir : List Chars) (cid p0 : Chars)
    (hc : ("CAM_").data.isPrefixOf cid = true)
    (writes : List Chars) (hw : ¬ writes = [])
    (hst : ∀ s ∈ writes, s = ("YES").data ∨ s = ("NO").data) :
    (writes.foldl (fun d s => write_ready_image p0 cid s d) dir).countP
        (fun e => matches_camera cid e) = 1 ∧
    get_camera_status (writes.foldl (fun d s => write_ready_image p0 cid s d) dir)
        cid = some (writes.getLast hw) := by
  have hlastmem : writes.getLast hw ∈ writes := List.getLast_mem hw
  have hlast := hst _ hlastmem
  rw [write_fold_eq p0 cid hc writes hw dir hst]
  constructor
  · rw [List.countP_append, countP_remove_zero]
    simp [List.countP_cons, matches_camera_ready_name cid _ hc hlast]
  · exact get_camera_status_append_name _ cid _ hc hlast

/-- C4 witness: a directory already holding a `CAM_1` artifact and junk,
two successive writes (`NO` then `YES`) for `CAM_1`. -/
theorem write_status_at_most_one_witness :
    (([("NO").data, ("YES").data] : List Chars).foldl
        (fun d s => write_ready_image ("images_src/CAM_1.jpg").data ("CAM_1").data s d)
        [("CAM_1_NO.jpg").data, ("junk.txt").data]).countP
        (fun e => matches_camera ("CAM_1").data e) = 1 ∧
    get_camera_status
        (([("NO").data, ("YES").data] : List Chars).foldl
          (fun d s => write_ready_image ("images_src/CAM_1.jpg").data ("CAM_1").data s d)
          [("CAM_1_NO.jpg").data, ("junk.txt").data]) ("CAM_1").data =
      some (([("NO").data, ("YES").data] : List Chars).getLast (by decide)) :=
  write_status_at_most_one [("CAM_1_NO.jpg").data, ("junk.txt").data]
    ("CAM_1").data ("images_src/CAM_1.jpg").data (by decide)
    [("NO").data, ("YES").data] (by decide) (by decide)

/-! ## C10 helper lemmas -/

theorem dropWhile_dropWhile_self (p : Char → Bool) (l : Chars) :
    (l.dropWhile p).dropWhile p = l.dropWhile p := by
  induction l with
  | nil => rfl
  | cons c t ih =>
    rw [List.dropWhile_cons]
    by_cases hp : p c = true
    · rw [if_pos hp]; exact ih
    · rw [if_neg hp, List.dropWhile_cons, if_neg hp]

theorem pyRStrip_prefix (w : Chars) : pyRStrip w <+: w := by
  unfold pyRStrip
  have h := List.dropWhile_suffix (l := w.reverse) pyIsSpace
  have h2 := List.reverse_prefix.mpr h
  rwa [List.reverse_reverse] at h2

theorem dropWhile_eq_self_of_prefix (p : Char → Bool) (w w' : Chars)
    (hw : w.dropWhile p = w) (hp : w' <+: w) : w'.dropWhile p = w' := by
  cases w' with
  | nil => rfl
  | cons c t =>
    cases w with
    | nil =>
      have := List.eq_nil_of_prefix_nil hp
      simp at this
    | cons c2 t2 =>
      have hcc : c = c2 := by
        rcases hp with ⟨r, hr⟩
        have hh := congrArg (fun l => l.head?) hr
        simpa using hh
      rw [List.dropWhile_cons] at hw
      by_cases hpc : p c2 = true
      · rw [if_pos hpc] at hw
        have hle : (t2.dropWhile p).length ≤ t2.length :=
          (List.dropWhile_suffix p).sublist.length_le
        have hlen := congrArg List.length hw
        simp at hlen
        omega
      · have hc : p c = false := by
          rw [hcc]; simpa using hpc
        rw [List.dropWhile_cons, hc]
        simp

theorem pyStrip_idem (y : Chars) : pyStrip (pyStrip y) = pyStrip y := by
  unfold pyStrip
  have hwfix : (pyLStrip y).dropWhile pyIsSpace = pyLStrip y :=
    dropWhile_dropWhile_self pyIsSpace y
  have hpre : pyRStrip (pyLStrip y) <+: pyLStrip y := pyRStrip_prefix _
  have hL : pyLStrip (pyRStrip (pyLStrip y)) = pyRStrip (pyLStrip y) :=
    dropWhile_eq_self_of_prefix pyIsSpace _ _ hwfix hpre
  rw [hL]
  unfold pyRStrip
  rw [List.reverse_reverse, dropWhile_dropWhile_self]

theorem readFeedLines_mem (content x : Chars) (hx : x ∈ readFeedLines content) :
    pyStrip x = x ∧ ¬ x = [] := by
  unfold readFeedLines at hx
  have h := List.mem_filter.mp hx
  have hne : ¬ x = [] := by simpa using h.2
  rcases List.mem_map.mp h.1 with ⟨y, _, hy⟩
  refine ⟨?_, hne⟩
  rw [← hy]
  exact pyStrip_idem y

/-! ## C10 -/

/-- C10: every message returned by a drain or a peek equals its own full
whitespace strip (leading and trailing, not only line terminators) and is
non-blank; consequently a whitespace-only message, once appended, is never
an element of any later drain or peek result. -/
theorem drained_messages_stripped (name : Chars) (st : FeedStore)
    (r : List Chars) (st' : FeedStore)
    (h : consume_messages name st = some (r, st') ∨
      peek_messages name st = some r) :
    ∀ x ∈ r, pyStrip x = x ∧ ¬ x = [] ∧ ∀ m, pyStrip m = [] → ¬ x = m := by
  have hr : r = [] ∨ ∃ c, r = readFeedLines c := by
    rcases h with h | h
    · unfold consume_messages at h
      by_cases hn : feedKey name = []
      · rw [if_pos hn] at h; simp at h
      · rw [if_neg hn] at h
        cases hc : st (feedKey name) with
        | none =>
          rw [hc] at h
          left
          injection h with h1
          exact (congrArg Prod.fst h1).symm
        | some c =>
          rw [hc] at h
          right
          refine ⟨c, ?_⟩
          injection h with h1
          exact (congrArg Prod.fst h1).symm
    · unfold peek_messages at h
      by_cases hn : feedKey name = []
      · rw [if_pos hn] at h; simp at h
      · rw [if_neg hn] at h
        cases hc : st (feedKey name) with
        | none =>
          rw [hc] at h
          left
          injection h with h1
          exact h1.symm
        | some c =>
          rw [hc] at h
          right
          refine ⟨c, ?_⟩
          injection h with h1
          exact h1.symm
  intro x hx
  rcases hr with rfl | ⟨c, rfl⟩
  · exact absurd hx (List.not_mem_nil x)
  · have hsx := readFeedLines_mem c x hx
    refine ⟨hsx.1, hsx.2, ?_⟩
    intro m hm hxm
    apply hsx.2
    rw [← hsx.1, hxm, hm]

/-- C10 witness: a peek on a feed whose file stores `" A \n "` returns the
message `A`, which is stripped, non-blank, and distinct from the
whitespace-only message `" "`. -/
theorem drained_messages_stripped_witness :
    pyStrip (("A").data) = ("A").data ∧ ¬ (("A").data : Chars) = [] ∧
      ¬ (("A").data : Chars) = (" ").data := by
  have h := drained_messages_stripped ("f").data
    (fun _ => some ((" A ").data ++ ('\n') :: (" ").data))
    [("A").data] (fun _ => none) (Or.inr (by decide)) (("A").data) (by decide)
  exact ⟨h.1, h.2.1, h.2.2 ((" ").data) (by decide)⟩

/-! ## C5 helper lemmas -/

theorem status_token_cases (s : Chars) :
    status_token s = ("YES").data ∨ status_token s = ("NO").data := by
  show (if pyUpper s = ("YES").data ∨ pyUpper s = ("NO").data then pyUpper s
    else ("NO").data) = ("YES").data ∨
    (if pyUpper s = ("YES").data ∨ pyUpper s = ("NO").data then pyUpper s
    else ("NO").data) = ("NO").data
  split_ifs with h
  · exact h
  · exact Or.inr rfl

theorem lookup_remove_other (cid cid2 : Chars) (hne : ¬ cid2 = cid) :
    ∀ (d : List Chars) (acc : Option Chars),
      (List.filterMap parse_status_filename
          (remove_existing_ready_file cid2 d)).foldl
        (fun acc kv => if kv.1 = cid then some kv.2 else acc) acc =
      (List.filterMap parse_status_filename d).foldl
        (fun acc kv => if kv.1 = cid then some kv.2 else acc) acc := by
  intro d
  induction d with
  | nil => intro acc; rfl
  | cons e rest ih =>
    intro acc
    unfold remove_existing_ready_file
    rw [List.filter_cons]
    by_cases hm : matches_camera cid2 e = true
    · rw [if_neg (by simp [hm])]
      have hpe : ∃ s, parse_status_filename e = some (cid2, s) := by
        rw [parse_status_eq_ready]
        unfold matches_camera at hm
        cases hp : parse_ready_filename e with
        | none => rw [hp] at hm; simp at hm
        | some pr =>
          rw [hp] at hm
          simp at hm
          exact ⟨pr.2, by rw [← hm]⟩
      rcases hpe with ⟨s, hpe⟩
      rw [List.filterMap_cons, hpe, List.foldl_cons]
      rw [show (if (cid2, s).1 = cid then some (cid2, s).2 else acc) = acc
        from by simp [hne]]
      exact ih acc
    · rw [if_pos (by simpa using hm)]
      rw [List.filterMap_cons, List.filterMap_cons]
      cases hp : parse_status_filename e with
      | none => exact ih acc
      | some kv =>
        rw [List.foldl_cons, List.foldl_cons]
        exact ih _

theorem get_camera_status_write (p0 cid2 tok : Chars) (d : List Chars)
    (cid : Chars)
    (hc2 : ("CAM_").data.isPrefixOf cid2 = true)
    (htok : tok = ("YES").data ∨ tok = ("NO").data) :
    get_camera_status (write_ready_image p0 cid2 tok d) cid =
      if cid2 = cid then some tok else get_camera_status d cid := by
  unfold get_camera_status write_ready_image
  rw [List.filterMap_append, List.foldl_append]
  have h1 : List.filterMap parse_status_filename [ready_name cid2 tok] =
      [(cid2, tok)] := by
    simp [List.filterMap_cons, parse_status_eq_ready,
      parse_ready_roundtrip cid2 tok hc2 htok]
  rw [h1, List.foldl_cons]
  dsimp only
  by_cases he : cid2 = cid
  · rw [if_pos he, if_pos he]
    rfl
  · rw [if_neg he, if_neg he]
    rw [List.foldl_nil]
    exact lookup_remove_other cid cid2 he d none

theorem detect_core_fst (ps : List Chars) (preds : Option (List Bool)) :
    (detect_core ps preds).map Prod.fst = ps := by
  induction ps generalizing preds with
  | nil => cases preds <;> rfl
  | cons p rest ih =>
    rcases preds with - | l
    · show List.map Prod.fst ((p, ("NO").data) :: detect_core rest none) = _
      rw [List.map_cons, ih]
    · cases l with
      | nil =>
        show List.map Prod.fst ((p, ("NO").data) :: detect_core rest (some [])) = _
        rw [List.map_cons, ih]
      | cons b bs =>
        show List.map Prod.fst ((p, if b then ("YES").data else ("NO").data) ::
          detect_core rest (some bs)) = _
        rw [List.map_cons, ih]

theorem process_detections_lookup_other (cid : Chars) :
    ∀ (results : List (Chars × Chars)) (d : List Chars),
      (∀ r ∈ results, ¬ camera_id_from_path r.1 = cid) →
      (∀ r ∈ results, ("CAM_").data.isPrefixOf (camera_id_from_path r.1) = true) →
      get_camera_status (process_detections results d) cid =
        get_camera_status d cid := by
  intro results
  induction results with
  | nil => intro d _ _; rfl
  | cons r rest ih =>
    intro d hall hcam
    unfold process_detections
    rw [List.foldl_cons]
    have h1 := ih (write_ready_image r.1 (camera_id_from_path r.1) (status_token r.2) d)
      (fun x hx => hall x (List.mem_cons_of_mem r hx))
      (fun x hx => hcam x (List.mem_cons_of_mem r hx))
    unfold process_detections at h1
    rw [h1]
    rw [get_camera_status_write _ _ _ d cid
      (hcam r (List.mem_cons_self r rest)) (status_token_cases r.2)]
    rw [if_neg (hall r (List.mem_cons_self r rest))]

theorem process_detections_cons (a b : Chars) (R : List (Chars × Chars))
    (d : List Chars) :
    process_detections ((a, b) :: R) d =
      process_detections R
        (write_ready_image a (camera_id_from_path a) (status_token b) d) := rfl

/-! ## C5 -/

/-- C5: for every batch of identifiers with pairwise distinct `CAM_*`
camera ids, after the batch runs every identifier has a status artifact:
an identifier the provider omitted (or every identifier, when the whole
call failed) reads back as `NO`, and an identifier with a returned verdict
reads back as that verdict. -/
theorem batch_fail_closed :
    ∀ (paths : List Chars) (preds : Option (List Bool)) (dir : List Chars),
      (∀ p ∈ paths, ("CAM_").data.isPrefixOf (camera_id_from_path p) = true) →
      (paths.map camera_id_from_path).Nodup →
      ∀ (i : Nat) (hi : i < paths.length),
      get_camera_status (process_batch paths preds dir)
        (camera_id_from_path (paths.get ⟨i, hi⟩)) =
        some (expected_batch_status preds i) := by
  intro paths
  induction paths with
  | nil => intro preds dir _ _ i hi; exact absurd hi (by simp)
  | cons p ps ih =>
    intro preds dir hcam hnodup i hi
    have hnd := hnodup
    rw [List.map_cons, List.nodup_cons] at hnd
    have hcamp := hcam p (List.mem_cons_self p ps)
    have hcams : ∀ q ∈ ps,
        ("CAM_").data.isPrefixOf (camera_id_from_path q) = true :=
      fun q hq => hcam q (List.mem_cons_of_mem p hq)
    have hstep : ∃ s0 Xt,
        detect_core (p :: ps) preds = (p, s0) :: detect_core ps Xt ∧
        status_token s0 = expected_batch_status preds 0 ∧
        (∀ j, expected_batch_status preds (j + 1) = expected_batch_status Xt j) := by
      rcases preds with - | l
      · exact ⟨("NO").data, none, rfl, rfl, fun j => rfl⟩
      · cases l with
        | nil => exact ⟨("NO").data, some [], rfl, rfl, fun j => rfl⟩
        | cons b bs =>
          refine ⟨if b then ("YES").data else ("NO").data, some bs, rfl, ?_,
            fun j => rfl⟩
          cases b <;> rfl
    rcases hstep with ⟨s0, Xt, hdc, hs0, hXt⟩
    have hpb : process_batch (p :: ps) preds dir =
        process_detections (detect_core (p :: ps) preds) dir := rfl
    rw [hpb, hdc, process_detections_cons]
    cases i with
    | zero =>
      have hget : ((p :: ps).get ⟨0, hi⟩) = p := rfl
      rw [hget]
      have hfst : ∀ r ∈ detect_core ps Xt, r.1 ∈ ps := by
        intro r hr
        have hm := List.mem_map_of_mem Prod.fst hr
        rwa [detect_core_fst] at hm
      have hall : ∀ r ∈ detect_core ps Xt,
          ¬ camera_id_from_path r.1 = camera_id_from_path p := by
        intro r hr heq
        exact hnd.1 (heq ▸ List.mem_map_of_mem camera_id_from_path (hfst r hr))
      have hcamr : ∀ r ∈ detect_core ps Xt,
          ("CAM_").data.isPrefixOf (camera_id_from_path r.1) = true :=
        fun r hr => hcams r.1 (hfst r hr)
      rw [process_detections_lookup_other (camera_id_from_path p)
        (detect_core ps Xt) _ hall hcamr]
      rw [get_camera_status_write _ _ _ dir _ hcamp (status_token_cases s0)]
      rw [if_pos rfl, hs0]
    | succ j =>
      have hj : j < ps.length := by simpa using hi
      have hget : ((p :: ps).get ⟨j + 1, hi⟩) = ps.get ⟨j, hj⟩ := rfl
      rw [hget, hXt j]
      exact ih Xt
        (write_ready_image p (camera_id_from_path p) (status_token s0) dir)
        hcams hnd.2 j hj

/-- C5 witness: two identifiers, provider returns a verdict only for the
first (`some [true]`); the omitted second identifier reads back `NO`. -/
theorem batch_fail_closed_witness :
    get_camera_status
        (process_batch [("CAM_1.jpg").data, ("CAM_2.jpg").data]
          (some [true]) [])
        (camera_id_from_path
          (([("CAM_1.jpg").data, ("CAM_2.jpg").data] : List Chars).get
            ⟨1, by decide⟩)) =
      some (expected_batch_status (some [true]) 1) :=
  batch_fail_closed [("CAM_1.jpg").data, ("CAM_2.jpg").data] (some [true]) []
    (by decide) (by decide) 1 (by decide)

/-! ## C8 helper lemmas -/

theorem detect_core_map (pf : Chars → Bool) (l : List Chars) :
    detect_core l (some (l.map pf)) =
      l.map (fun p => (p, if pf p then ("YES").data else ("NO").data)) := by
  induction l with
  | nil => rfl
  | cons p rest ih =>
    show (p, if pf p then ("YES").data else ("NO").data) ::
      detect_core rest (some (rest.map pf)) = _
    rw [List.map_cons, ih]

theorem process_detections_append (R1 R2 : List (Chars × Chars))
    (d : List Chars) :
    process_detections (R1 ++ R2) d =
      process_detections R2 (process_detections R1 d) := by
  unfold process_detections
  rw [List.foldl_append]

theorem toBatches_flatten : ∀ (l : List Chars), (toBatches l).flatten = l := by
  have H : ∀ (n : Nat) (l : List Chars), l.length ≤ n →
      (toBatches l).flatten = l := by
    intro n
    induction n with
    | zero =>
      intro l hl
      have h0 : l = [] := List.eq_nil_of_length_eq_zero (Nat.le_zero.mp hl)
      subst h0
      rw [show toBatches ([] : List Chars) = [] from by rw [toBatches]]
      rfl
    | succ k ihk =>
      intro l hl
      cases l with
      | nil =>
        rw [show toBatches ([] : List Chars) = [] from by rw [toBatches]]
        rfl
      | cons x xs =>
        rw [show toBatches (x :: xs) =
          ((x :: xs).take BATCH_SIZE) :: toBatches ((x :: xs).drop BATCH_SIZE)
          from by rw [toBatches]]
        rw [List.flatten_cons]
        rw [ihk ((x :: xs).drop BATCH_SIZE) (by
          rw [List.length_drop]
          have hl2 : xs.length + 1 ≤ k + 1 := by simpa using hl
          simp only [List.length_cons, BATCH_SIZE]
          omega)]
        exact List.take_append_drop BATCH_SIZE (x :: xs)
  exact fun l => H l.length l (Nat.le_refl _)

theorem capture_batches_fold (pf : Chars → Bool) :
    ∀ (bs : List (List Chars)) (dir : List Chars),
      bs.foldl (fun d batch => process_batch batch (some (batch.map pf)) d) dir =
      process_detections
        ((bs.flatten).map
          (fun p => (p, if pf p then ("YES").data else ("NO").data))) dir := by
  intro bs
  induction bs with
  | nil => intro dir; rfl
  | cons b rest ih =>
    intro dir
    rw [List.foldl_cons, ih]
    rw [List.flatten_cons, List.map_append, process_detections_append]
    rw [show process_batch b (some (b.map pf)) dir =
      process_detections (detect_core b (some (b.map pf))) dir from rfl]
    rw [detect_core_map]

/-! ## C8 -/

/-- C8: for every set of source files and every per-identifier verdict
assignment `pf` by the Inference Provider, partitioning into batches of
`BATCH_SIZE` produces exactly the same ready directory — and hence the same
per-camera status mapping — as processing all identifiers in one batch. -/
theorem capture_batching_irrelevant (pf : Chars → Bool)
    (files dir : List Chars) :
    capture_and_update_images (fun batch => some (batch.map pf)) files dir =
      process_batch files (some (files.map pf)) dir ∧
    ∀ cid, get_camera_status
        (capture_and_update_images (fun batch => some (batch.map pf)) files dir)
        cid =
      get_camera_status (process_batch files (some (files.map pf)) dir) cid := by
  have h1 : capture_and_update_images (fun batch => some (batch.map pf)) files dir =
      process_batch files (some (files.map pf)) dir := by
    unfold capture_and_update_images
    rw [capture_batches_fold pf (toBatches files) dir, toBatches_flatten]
    rw [show process_batch files (some (files.map pf)) dir =
      process_detections (detect_core files (some (files.map pf))) dir from rfl]
    rw [detect_core_map]
  exact ⟨h1, fun cid => by rw [h1]⟩

/-! ## C6 -/

/-- C6: a well-formed force-update request whose `CAM_*` camera id has no
matching source input performs no effect at all — no artifact write and no
served message — and processing continues with the remaining requests. -/
theorem force_request_drop (srcDir : List Chars)
    (provider : Chars → Option (List Bool)) (req : Chars) (rest : List Chars)
    (hform : ("FORCE_UPDATE_").data.isPrefixOf req = true)
    (hcam : ("CAM_").data.isPrefixOf (pyStrip (req.drop 13)) = true)
    (hfind : find_source_image srcDir (pyStrip (req.drop 13)) = none) :
    process_one_force_request srcDir provider req = [] ∧
    process_force_requests srcDir provider (req :: rest) =
      process_force_requests srcDir provider rest := by
  have hne : ¬ pyStrip (req.drop 13) = [] := by
    intro h
    rw [h] at hcam
    exact absurd hcam (by decide)
  have h0 : process_one_force_request srcDir provider req = [] := by
    unfold process_one_force_request
    rw [if_pos hform]
    dsimp only
    rw [if_neg hne, if_pos hcam, hfind]
  refine ⟨h0, ?_⟩
  show (req :: rest).flatMap (process_one_force_request srcDir provider) = _
  rw [List.flatMap_cons, h0, List.nil_append]
  rfl

/-- C6 witness: `FORCE_UPDATE_CAM_9` with only a `CAM_1` source present. -/
theorem force_request_drop_witness :
    process_one_force_request [("CAM_1.jpg").data] (fun _ => none)
      ("FORCE_UPDATE_CAM_9").data = [] ∧
    process_force_requests [("CAM_1.jpg").data] (fun _ => none)
      [("FORCE_UPDATE_CAM_9").data, ("FORCE_UPDATE_CAM_1").data] =
      process_force_requests [("CAM_1.jpg").data] (fun _ => none)
        [("FORCE_UPDATE_CAM_1").data] :=
  force_request_drop [("CAM_1.jpg").data] (fun _ => none)
    ("FORCE_UPDATE_CAM_9").data [("FORCE_UPDATE_CAM_1").data]
    (by decide) (by decide) (by decide)

/-! ## C7 -/

/-- C7: a well-formed force-update request for a `CAM_*` camera id with a
resolvable source performs exactly two effects, in order: the artifact
write, then exactly one served correlation message `UPDATED_<camera_id>` —
so the served message is appended only after the artifact write. -/
theorem force_request_served (srcDir : List Chars)
    (provider : Chars → Option (List Bool)) (cid sourcePath : Chars)
    (hcam : ("CAM_").data.isPrefixOf cid = true)
    (hstrip : pyStrip cid = cid)
    (hfind : find_source_image srcDir cid = some sourcePath) :
    process_one_force_request srcDir provider (("FORCE_UPDATE_").data ++ cid) =
      [FsEvent.writeArtifact sourcePath cid
        (force_detect_status provider sourcePath),
       FsEvent.servedMessage (("UPDATED_").data ++ cid)] := by
  have hne : ¬ cid = [] := by
    intro h
    rw [h] at hcam
    exact absurd hcam (by decide)
  have hdrop : ((("FORCE_UPDATE_").data ++ cid).drop 13) = cid := by
    rw [show (13 : Nat) = (("FORCE_UPDATE_").data : Chars).length from rfl]
    exact List.drop_left _ _
  have hpre : ("FORCE_UPDATE_").data.isPrefixOf
      ((("FORCE_UPDATE_").data : Chars) ++ cid) = true := by
    rw [List.isPrefixOf_iff_prefix]
    exact List.prefix_append _ _
  unfold process_one_force_request
  rw [if_pos hpre]
  dsimp only
  rw [hdrop, hstrip, if_neg hne, if_pos hcam, hfind]

/-- C7 witness: `FORCE_UPDATE_CAM_2` resolving to `CAM_2.png`. -/
theorem force_request_served_witness :
    process_one_force_request [("notes.txt").data, ("CAM_2.png").data]
      (fun _ => some [true]) (("FORCE_UPDATE_").data ++ ("CAM_2").data) =
      [FsEvent.writeArtifact ("images_src/CAM_2.png").data ("CAM_2").data
        (force_detect_status (fun _ => some [true]) ("images_src/CAM_2.png").data),
       FsEvent.servedMessage (("UPDATED_").data ++ ("CAM_2").data)] :=
  force_request_served [("notes.txt").data, ("CAM_2.png").data]
    (fun _ => some [true]) ("CAM_2").data ("images_src/CAM_2.png").data
    (by decide) (by decide) (by decide)
